import Mathlib

/-!
Verification of the CQF (counting-quotient-filter) mock service of the
repository.  The service (`cqfService`) keeps a mutable map
`tableName → Set<string>` and exposes `buildCQF`, `searchCQF`, `insertCQF`,
`deleteCQF` and `generatePKFileContent`.  We embed the JavaScript `Set`
as a duplicate-free list (JS sets preserve insertion order and never hold
duplicates), the backend map as a function `String → Option JsSet`, and the
operations as pure state transformers.  A thrown `Error` ("Filter not built
for this table") is embedded as the typed error `CqfError.notBuilt`; a throw
happens before any mutation, so the error branches return the store
unchanged.
-/

namespace CqfService

abbrev Key := String
abbrev TableName := String

/-- Embedding of a JavaScript `Set<string>`: its elements in insertion
order, with the invariant that a JS set never holds duplicates. -/
structure JsSet where
  elems : List Key
  nodup : elems.Nodup

/-- `set.has(key)`. -/
def jsHas (s : JsSet) (k : Key) : Bool := s.elems.contains k

/-- `set.add(key)`: appends `key` unless it is already present. -/
def jsAdd (s : JsSet) (k : Key) : JsSet :=
  if h : k ∈ s.elems then s
  else ⟨s.elems ++ [k], by
    refine s.nodup.append (List.nodup_singleton k) ?_
    intro a ha hb
    rw [List.mem_singleton] at hb
    exact h (hb ▸ ha)⟩

/-- `set.delete(key)` removes the (unique) occurrence of `key`. -/
def jsDelete (s : JsSet) (k : Key) : JsSet :=
  ⟨s.elems.erase k, s.nodup.erase k⟩

/-- `new Set()`. -/
def jsEmpty : JsSet := ⟨[], List.nodup_nil⟩

/-- `new Set(keys)`: inserts the keys in order, collapsing duplicates. -/
def jsSetOfList (keys : List Key) : JsSet := keys.foldl jsAdd jsEmpty

/-- `set.size`. -/
def jsSize (s : JsSet) : Nat := s.elems.length

/-- The mock backend store `mockBackendStore : Map<string, Set<string>>`. -/
def Store := TableName → Option JsSet

/-- The store at module initialisation: `new Map()`. -/
def emptyStore : Store := fun _ => none

/-- `mockBackendStore.set(name, v)`. -/
def updateStore (st : Store) (name : TableName) (v : JsSet) : Store :=
  fun m => if m = name then some v else st m

/-- The typed failure of the service: the thrown
`Error("Filter not built for this table")`. -/
inductive CqfError where
  | notBuilt
deriving DecidableEq

/-- The response of `buildCQF`: `{ success, message }`. -/
structure BuildResult where
  success : Bool
  message : String
deriving DecidableEq

/-- `buildCQF(tableName, keys)`: unconditionally stores `new Set(keys)`
under `tableName` and reports success, with the key count of the message
taken from `keys.length`. -/
def buildCQF (tableName : TableName) (keys : List Key) (store : Store) :
    BuildResult × Store :=
  ({ success := true
     message := "CQF built successfully for " ++ tableName ++ " with " ++
       toString keys.length ++ " keys." },
   updateStore store tableName (jsSetOfList keys))

/-- `searchCQF(tableName, key)`: throws `notBuilt` when the map has no set
for `tableName`, otherwise answers `set.has(key)`. -/
def searchCQF (tableName : TableName) (key : Key) (store : Store) :
    Except CqfError Bool :=
  match store tableName with
  | none => .error .notBuilt
  | some s => .ok (jsHas s key)

/-- `insertCQF(tableName, key)`: throws `notBuilt` when unbuilt (leaving the
store untouched), otherwise `set.add(key)` and `success = true`. -/
def insertCQF (tableName : TableName) (key : Key) (store : Store) :
    Except CqfError Bool × Store :=
  match store tableName with
  | none => (.error .notBuilt, store)
  | some s => (.ok true, updateStore store tableName (jsAdd s key))

/-- `deleteCQF(tableName, key)`: throws `notBuilt` when unbuilt, otherwise
`success = set.delete(key)` (true iff the key was present). -/
def deleteCQF (tableName : TableName) (key : Key) (store : Store) :
    Except CqfError Bool × Store :=
  match store tableName with
  | none => (.error .notBuilt, store)
  | some s => (.ok (jsHas s key), updateStore store tableName (jsDelete s key))

/-- `generatePKFileContent(keys)`: `keys.join('\n')`. -/
def generatePKFileContent (keys : List Key) : String :=
  String.intercalate "\n" keys

/-! ### Basic membership lemmas about the `JsSet` embedding -/

theorem mem_jsAdd {s : JsSet} {k k' : Key} :
    k' ∈ (jsAdd s k).elems ↔ k' ∈ s.elems ∨ k' = k := by
  unfold jsAdd
  split
  · rename_i h
    constructor
    · exact Or.inl
    · rintro (hk | rfl)
      · exact hk
      · exact h
  · simp [List.mem_append]

theorem mem_jsDelete {s : JsSet} {k k' : Key} :
    k' ∈ (jsDelete s k).elems ↔ k' ∈ s.elems ∧ k' ≠ k := by
  unfold jsDelete
  simp only []
  rw [s.nodup.mem_erase_iff]
  tauto

theorem mem_jsSetOfList {keys : List Key} {k : Key} :
    k ∈ (jsSetOfList keys).elems ↔ k ∈ keys := by
  have h : ∀ (l : List Key) (s : JsSet),
      k ∈ (l.foldl jsAdd s).elems ↔ k ∈ s.elems ∨ k ∈ l := by
    intro l
    induction l with
    | nil => simp
    | cons a l ih =>
      intro s
      rw [List.foldl_cons, ih, mem_jsAdd]
      simp
      tauto
  rw [jsSetOfList, h, jsEmpty]
  simp

theorem jsHas_iff {s : JsSet} {k : Key} : jsHas s k = true ↔ k ∈ s.elems := by
  simp [jsHas]

theorem jsHas_jsAdd (s : JsSet) (k k' : Key) :
    jsHas (jsAdd s k) k' = (jsHas s k' || k' == k) := by
  rw [Bool.eq_iff_iff]
  simp only [Bool.or_eq_true, beq_iff_eq, jsHas_iff]
  exact mem_jsAdd

theorem jsHas_jsDelete (s : JsSet) (k k' : Key) :
    jsHas (jsDelete s k) k' = (jsHas s k' && !(k' == k)) := by
  rw [Bool.eq_iff_iff]
  simp only [Bool.and_eq_true, Bool.not_eq_true', beq_eq_false_iff_ne, jsHas_iff]
  exact mem_jsDelete

theorem jsHas_jsSetOfList (keys : List Key) (k : Key) :
    jsHas (jsSetOfList keys) k = keys.contains k := by
  rw [Bool.eq_iff_iff]
  rw [jsHas_iff, mem_jsSetOfList]
  exact List.elem_iff.symm

theorem jsSize_jsSetOfList (keys : List Key) :
    jsSize (jsSetOfList keys) = keys.dedup.length := by
  have h1 : (jsSetOfList keys).elems.toFinset = keys.dedup.toFinset := by
    ext a
    simp [mem_jsSetOfList]
  have h2 := List.toFinset_card_of_nodup (jsSetOfList keys).nodup
  have h3 := List.toFinset_card_of_nodup keys.nodup_dedup
  rw [jsSize, ← h2, h1, h3]

/-! ### Traces of service calls

To state history-dependent properties ("a key inserted and not later
deleted is found") we run sequences of `build`/`insert`/`delete` calls
against the store, exactly as a caller of the service would. -/

/-- One mutating call against the service. -/
inductive Op where
  | build (name : TableName) (keys : List Key)
  | insert (name : TableName) (key : Key)
  | delete (name : TableName) (key : Key)
deriving DecidableEq

/-- The store after one call (a thrown `notBuilt` leaves it unchanged). -/
def applyOp (st : Store) : Op → Store
  | .build n ks => (buildCQF n ks st).2
  | .insert n k => (insertCQF n k st).2
  | .delete n k => (deleteCQF n k st).2

/-- The store after a sequence of calls. -/
def runOps (st : Store) (ops : List Op) : Store := ops.foldl applyOp st

/-- Tracks whether the key `k` of table `name` is logically present after
one more call: a build of `name` makes it exactly membership in the new key
list, an insert of `k` makes it present, a delete of `k` removes it, and
calls on other tables or keys change nothing. -/
def stepLive (name k : Key) (acc : Bool) : Op → Bool
  | .build n ks => if n = name then ks.contains k else acc
  | .insert n k' => if n = name then (acc || (k == k')) else acc
  | .delete n k' => if n = name then (acc && !(k == k')) else acc

/-- `k` is live for `name` after the trace: it was supplied by the most
recent build of `name` or inserted since it, and not deleted (nor dropped
by a later build) afterwards. -/
def liveKey (name k : Key) (ops : List Op) : Bool :=
  ops.foldl (stepLive name k) false

/-- Whether a call is a build of the given table. -/
def isBuildOf (name : TableName) : Op → Bool
  | .build n _ => n == name
  | _ => false

/-- Whether the trace contains a build of `name` (the only way an instance
comes into existence). -/
def builtAfter (name : TableName) (ops : List Op) : Bool :=
  ops.any (isBuildOf name)

/-- The observable membership of key `k` in table `name`: `none` when the
filter is not built, otherwise the answer of `set.has(k)`. -/
def obs (name : TableName) (k : Key) (st : Store) : Option Bool :=
  (st name).map (fun s => jsHas s k)

theorem obs_applyOp_some {name : TableName} {k : Key} {st : Store} {b : Bool}
    (h : obs name k st = some b) (op : Op) :
    obs name k (applyOp st op) = some (stepLive name k b op) := by
  obtain ⟨s, hs, hb⟩ : ∃ s, st name = some s ∧ jsHas s k = b := by
    unfold obs at h
    cases hst : st name with
    | none => rw [hst] at h; cases h
    | some s =>
      rw [hst] at h
      simp only [Option.map_some', Option.some.injEq] at h
      exact ⟨s, rfl, h⟩
  cases op with
  | build n ks =>
    by_cases hn : n = name
    · subst hn
      simp [applyOp, buildCQF, obs, updateStore, stepLive, jsHas_jsSetOfList]
    · simp [applyOp, buildCQF, obs, updateStore, stepLive, hn, Ne.symm hn, hs,
        hb]
  | insert n k' =>
    cases hsn : st n with
    | none =>
      have hn : ¬n = name := fun he => by rw [he, hs] at hsn; cases hsn
      simpa [applyOp, insertCQF, hsn, stepLive, hn] using h
    | some s' =>
      by_cases hn : n = name
      · subst hn
        rw [hs] at hsn
        obtain rfl : s = s' := by injection hsn
        simp [applyOp, insertCQF, hsn, obs, updateStore, stepLive,
          jsHas_jsAdd, hs, hb]
      · simp [applyOp, insertCQF, hsn, obs, updateStore, stepLive, hn,
          Ne.symm hn, hs, hb]
  | delete n k' =>
    cases hsn : st n with
    | none =>
      have hn : ¬n = name := fun he => by rw [he, hs] at hsn; cases hsn
      simpa [applyOp, deleteCQF, hsn, stepLive, hn] using h
    | some s' =>
      by_cases hn : n = name
      · subst hn
        rw [hs] at hsn
        obtain rfl : s = s' := by injection hsn
        simp [applyOp, deleteCQF, hsn, obs, updateStore, stepLive,
          jsHas_jsDelete, hs, hb]
      · simp [applyOp, deleteCQF, hsn, obs, updateStore, stepLive, hn,
          Ne.symm hn, hs, hb]

theorem obs_applyOp_none {name : TableName} {k : Key} {st : Store} {op : Op}
    (h : obs name k st = none) (hop : isBuildOf name op = false) :
    obs name k (applyOp st op) = none := by
  have hs : st name = none := by
    unfold obs at h
    cases hst : st name with
    | none => rfl
    | some s => rw [hst] at h; cases h
  cases op with
  | build n ks =>
    have hn : ¬n = name := by simpa [isBuildOf] using hop
    simp [applyOp, buildCQF, obs, updateStore, Ne.symm hn, hs]
  | insert n k' =>
    cases hsn : st n with
    | none => simp [applyOp, insertCQF, hsn, obs, hs]
    | some s' =>
      have hn : ¬n = name := fun he => by rw [he, hs] at hsn; cases hsn
      simp [applyOp, insertCQF, hsn, obs, updateStore, Ne.symm hn, hs]
  | delete n k' =>
    cases hsn : st n with
    | none => simp [applyOp, deleteCQF, hsn, obs, hs]
    | some s' =>
      have hn : ¬n = name := fun he => by rw [he, hs] at hsn; cases hsn
      simp [applyOp, deleteCQF, hsn, obs, updateStore, Ne.symm hn, hs]

theorem obs_runOps_some {name : TableName} {k : Key} :
    ∀ (ops : List Op) (st : Store) (b : Bool), obs name k st = some b →
      obs name k (runOps st ops) = some (ops.foldl (stepLive name k) b) := by
  intro ops
  induction ops with
  | nil => intro st b h; simpa [runOps] using h
  | cons op rest ih =>
    intro st b h
    have h1 := obs_applyOp_some h op
    simpa [runOps, List.foldl_cons] using ih (applyOp st op) _ h1

theorem foldl_stepLive_of_builtAfter {name : TableName} {k : Key} :
    ∀ (ops : List Op), builtAfter name ops = true →
      ∀ (a b : Bool), ops.foldl (stepLive name k) a =
        ops.foldl (stepLive name k) b := by
  intro ops
  induction ops with
  | nil => intro h; simp [builtAfter] at h
  | cons op rest ih =>
    intro h a b
    rcases hop : isBuildOf name op with _ | _
    · have hrest : builtAfter name rest = true := by
        rcases (List.any_eq_true).mp h with ⟨x, hx, hbx⟩
        rcases List.mem_cons.mp hx with rfl | hx'
        · rw [hop] at hbx; cases hbx
        · exact (List.any_eq_true).mpr ⟨x, hx', hbx⟩
      simpa [List.foldl_cons] using ih hrest _ _
    · cases op with
      | build n ks =>
        have hn : n = name := by simpa [isBuildOf] using hop
        simp [List.foldl_cons, stepLive, hn]
      | insert n k' => simp [isBuildOf] at hop
      | delete n k' => simp [isBuildOf] at hop

theorem obs_runOps_none {name : TableName} {k : Key} :
    ∀ (ops : List Op) (st : Store), obs name k st = none →
      obs name k (runOps st ops) =
        if builtAfter name ops = true then some (liveKey name k ops)
        else none := by
  intro ops
  induction ops with
  | nil => intro st h; simpa [runOps, builtAfter] using h
  | cons op rest ih =>
    intro st h
    rcases hop : isBuildOf name op with _ | _
    · have h1 := obs_applyOp_none h hop
      have h2 := ih (applyOp st op) h1
      have hba : builtAfter name (op :: rest) = builtAfter name rest := by
        simp [builtAfter, List.any_cons, hop]
      rw [runOps, List.foldl_cons, ← runOps, h2, hba]
      rcases hrest : builtAfter name rest with _ | _
      · simp
      · have heq := foldl_stepLive_of_builtAfter (k := k) rest hrest
          false (stepLive name k false op)
        simp [liveKey, List.foldl_cons, heq]
    · cases op with
      | build n ks =>
        have hn : n = name := by simpa [isBuildOf] using hop
        subst hn
        have h1 : obs n k (applyOp st (Op.build n ks)) =
            some (ks.contains k) := by
          simp [applyOp, buildCQF, obs, updateStore, jsHas_jsSetOfList]
        have h2 := obs_runOps_some rest (applyOp st (Op.build n ks)) _ h1
        rw [runOps, List.foldl_cons, ← runOps, h2]
        have hba : builtAfter n (Op.build n ks :: rest) = true := by
          simp [builtAfter, List.any_cons, isBuildOf]
        rw [hba, if_pos rfl, liveKey, List.foldl_cons]
        simp [stepLive]
      | insert n k' => simp [isBuildOf] at hop
      | delete n k' => simp [isBuildOf] at hop

/-- From the empty store, an instance exists for `name` after a trace
exactly when the trace contains a build of `name`. -/
theorem isSome_runOps_emptyStore (name : TableName) (ops : List Op) :
    ((runOps emptyStore ops) name).isSome = builtAfter name ops := by
  have h0 : obs name name emptyStore = none := rfl
  have h := obs_runOps_none ops emptyStore h0
  have hobs : ((runOps emptyStore ops) name).isSome =
      (obs name name (runOps emptyStore ops)).isSome := by
    unfold obs
    cases (runOps emptyStore ops) name <;> rfl
  rw [hobs, h]
  rcases builtAfter name ops with _ | _ <;> simp

/-! ### The join used by the primary-key export -/

/-- The part of a `'\n'`-join that follows the first element. -/
def joinTail (l : List Key) : String :=
  match l with
  | [] => ""
  | a :: as => "\n" ++ a ++ joinTail as

theorem intercalate_go_eq (l : List Key) :
    ∀ acc : String, String.intercalate.go acc "\n" l = acc ++ joinTail l := by
  induction l with
  | nil =>
    intro acc
    rw [String.intercalate.go, joinTail]
    exact (String.append_empty acc).symm
  | cons a as ih =>
    intro acc
    rw [String.intercalate.go, ih, joinTail]
    simp [String.append_assoc]

/-! ### Claim theorems -/

/-- C1 (counterexample): in the trace `build "t" ["k"]; build "t" []`, the
key `"k"` was supplied to a build of `"t"`, no `delete "t" "k"` call ever
ran, the filter for `"t"` is built, and yet search reports
`found = false`: the literal claim fails because a later build of the same
table replaces the set wholesale and drops the key. -/
theorem searchCQF_false_negative_cex :
    Op.build "t" ["k"] ∈ [Op.build "t" ["k"], Op.build "t" []] ∧
    "k" ∈ ["k"] ∧
    List.count (Op.delete "t" "k")
      [Op.build "t" ["k"], Op.build "t" []] = 0 ∧
    ((runOps emptyStore [Op.build "t" ["k"], Op.build "t" []]) "t").isSome
      = true ∧
    searchCQF "t" "k" (runOps emptyStore
      [Op.build "t" ["k"], Op.build "t" []]) = .ok false := by
  refine ⟨by decide, by decide, by decide, rfl, rfl⟩

/-- C1 (amended): no false negatives relative to the current instance: for
every trace from the fresh store after which `name` has a built filter, and
every key that is live — supplied by the most recent build of `name` or
inserted since it, and not afterwards deleted nor dropped by a later
build — search reports `found = true`. -/
theorem searchCQF_no_false_negatives (ops : List Op) (name k : Key)
    (hbuilt : ((runOps emptyStore ops) name).isSome = true)
    (hlive : liveKey name k ops = true) :
    searchCQF name k (runOps emptyStore ops) = .ok true := by
  have h0 : obs name k emptyStore = none := rfl
  have h := obs_runOps_none ops emptyStore h0
  have hba : builtAfter name ops = true := by
    rw [← isSome_runOps_emptyStore]
    exact hbuilt
  rw [hba] at h
  rw [if_pos rfl, hlive] at h
  unfold obs at h
  cases hst : (runOps emptyStore ops) name with
  | none => rw [hst] at h; cases h
  | some s =>
    rw [hst] at h
    simp only [Option.map_some', Option.some.injEq] at h
    simp [searchCQF, hst, h]

/-- C1 (witness for the amended theorem) at the trace
`build "t" ["a"]; insert "t" "b"; delete "t" "a"` and the key `"b"`. -/
theorem searchCQF_no_false_negatives_witness :
    searchCQF "t" "b" (runOps emptyStore
      [Op.build "t" ["a"], Op.insert "t" "b", Op.delete "t" "a"])
      = .ok true :=
  searchCQF_no_false_negatives
    [Op.build "t" ["a"], Op.insert "t" "b", Op.delete "t" "a"]
    "t" "b" rfl rfl

/-- C2 (counterexample): the entire build response is identical for the key
lists `["a","a"]` and `["a","b"]`, although their numbers of distinct keys
differ (1 vs 2), so the count build reports cannot be the number of
distinct keys: the message interpolates `keys.length`, which counts
duplicates, even though the stored set itself has collapsed them. -/
theorem buildCQF_itemCount_cex :
    (buildCQF "t" ["a", "a"] emptyStore).1
      = (buildCQF "t" ["a", "b"] emptyStore).1 ∧
    (["a", "a"] : List Key).dedup.length = 1 ∧
    (["a", "b"] : List Key).dedup.length = 2 ∧
    jsSize (jsSetOfList ["a", "a"]) = 1 := by
  refine ⟨rfl, by decide, by decide, by decide⟩

/-- C2 (amended): build always succeeds for every name and key list; the
stored membership set holds exactly the distinct keys, so the instance's
item count is the number of distinct keys (and 0 for the empty list); but
the count in the reported message is `keys.length`, counting duplicates. -/
theorem buildCQF_itemCount (name : TableName) (keys : List Key) (st : Store) :
    (buildCQF name keys st).1.success = true ∧
    (buildCQF name keys st).2 name = some (jsSetOfList keys) ∧
    jsSize (jsSetOfList keys) = keys.dedup.length ∧
    jsSize (jsSetOfList ([] : List Key)) = 0 ∧
    (buildCQF name keys st).1.message =
      "CQF built successfully for " ++ name ++ " with " ++
        toString keys.length ++ " keys." := by
  refine ⟨rfl, ?_, jsSize_jsSetOfList keys, rfl, rfl⟩
  simp [buildCQF, updateStore]

/-- C3: search, insert and delete on a name with no live instance each fail
with the typed `notBuilt` error, never succeed, and leave the store
untouched. -/
theorem notBuilt_ops (name k : Key) (st : Store) (h : st name = none) :
    searchCQF name k st = .error .notBuilt ∧
    insertCQF name k st = (.error .notBuilt, st) ∧
    deleteCQF name k st = (.error .notBuilt, st) := by
  refine ⟨?_, ?_, ?_⟩ <;> simp [searchCQF, insertCQF, deleteCQF, h]

/-- C3 (witness) on the never-built name `"orders"`. -/
theorem notBuilt_ops_witness :
    searchCQF "orders" "x" emptyStore = .error .notBuilt ∧
    insertCQF "orders" "x" emptyStore = (.error .notBuilt, emptyStore) ∧
    deleteCQF "orders" "x" emptyStore = (.error .notBuilt, emptyStore) :=
  notBuilt_ops "orders" "x" emptyStore rfl

/-- C4: on a built name, delete reports success exactly when the key is
currently a member (an absent key gives the normal outcome `.ok false`,
not an error), afterwards the key is gone, and deleting the same key again
reports `success = false`. -/
theorem deleteCQF_success (name k : Key) (st : Store) (s : JsSet)
    (h : st name = some s) :
    (deleteCQF name k st).1 = .ok (jsHas s k) ∧
    searchCQF name k (deleteCQF name k st).2 = .ok false ∧
    (deleteCQF name k (deleteCQF name k st).2).1 = .ok false := by
  refine ⟨?_, ?_, ?_⟩ <;>
    simp [deleteCQF, h, searchCQF, updateStore, jsHas_jsDelete]

/-- C4 (witness) on the store built from `["1","2","3"]`, deleting the
member `"2"`. -/
theorem deleteCQF_success_witness :
    (deleteCQF "users" "2" (buildCQF "users" ["1", "2", "3"] emptyStore).2).1
      = .ok (jsHas (jsSetOfList ["1", "2", "3"]) "2") ∧
    searchCQF "users" "2"
      (deleteCQF "users" "2"
        (buildCQF "users" ["1", "2", "3"] emptyStore).2).2 = .ok false ∧
    (deleteCQF "users" "2"
      (deleteCQF "users" "2"
        (buildCQF "users" ["1", "2", "3"] emptyStore).2).2).1 = .ok false :=
  deleteCQF_success "users" "2" (buildCQF "users" ["1", "2", "3"] emptyStore).2
    (jsSetOfList ["1", "2", "3"]) rfl

/-- C5: build is fully replacing and idempotent: the response, the stored
instance and every later search result depend only on the arguments and
not on any prior state under that name; an immediate rebuild with the same
keys returns the same response and instance, and every supplied key is
found after either build. -/
theorem buildCQF_idempotent (name : TableName) (keys : List Key)
    (st st' : Store) (k : Key) :
    (buildCQF name keys st).1 = (buildCQF name keys st').1 ∧
    (buildCQF name keys st).2 name = (buildCQF name keys st').2 name ∧
    searchCQF name k (buildCQF name keys st).2 =
      searchCQF name k (buildCQF name keys st').2 ∧
    (buildCQF name keys (buildCQF name keys st).2).1 =
      (buildCQF name keys st).1 ∧
    (buildCQF name keys (buildCQF name keys st).2).2 name =
      (buildCQF name keys st).2 name ∧
    (k ∈ keys → searchCQF name k (buildCQF name keys st).2 = .ok true) := by
  refine ⟨rfl, ?_, ?_, rfl, ?_, fun hk => ?_⟩ <;>
    simp [buildCQF, updateStore, searchCQF, jsHas_jsSetOfList]
  exact hk

/-- C5 (witness): after `build "t" ["1","2"]`, the supplied key `"2"` is
found. -/
theorem buildCQF_idempotent_witness :
    searchCQF "t" "2" (buildCQF "t" ["1", "2"] emptyStore).2 = .ok true :=
  (buildCQF_idempotent "t" ["1", "2"] emptyStore emptyStore "2").2.2.2.2.2
    (by decide)

/-- C6: on a built name, insert of a key followed by delete of the same key
makes a subsequent search report `found = false` (the backing structure is
exact, so there is no false-positive residue). -/
theorem insert_delete_roundtrip (name k : Key) (st : Store) (s : JsSet)
    (h : st name = some s) :
    searchCQF name k
      (deleteCQF name k (insertCQF name k st).2).2 = .ok false := by
  simp [insertCQF, h, deleteCQF, updateStore, searchCQF, jsHas_jsDelete]

/-- C6 (witness) on the store built from `["a"]` with the fresh key
`"x"`. -/
theorem insert_delete_roundtrip_witness :
    searchCQF "t" "x"
      (deleteCQF "t" "x"
        (insertCQF "t" "x" (buildCQF "t" ["a"] emptyStore).2).2).2
      = .ok false :=
  insert_delete_roundtrip "t" "x" (buildCQF "t" ["a"] emptyStore).2
    (jsSetOfList ["a"]) rfl

/-- C7: building table `A` leaves the entry of every other table `B`
(its existence and its membership set) unchanged. -/
theorem buildCQF_isolation (A B : TableName) (keys : List Key) (st : Store)
    (h : B ≠ A) :
    (buildCQF A keys st).2 B = st B := by
  simp [buildCQF, updateStore, h]

/-- C7 (witness): building `"a"` does not create an entry for `"b"`. -/
theorem buildCQF_isolation_witness :
    (buildCQF "a" ["k"] emptyStore).2 "b" = emptyStore "b" :=
  buildCQF_isolation "a" "b" ["k"] emptyStore (by decide)

/-- C8: build never fails (so the clause about a failed build clobbering a
prior instance holds vacuously), and an insert or delete that fails
returns the store exactly as it was. -/
theorem error_atomicity (name k : Key) (keys : List Key) (st : Store) :
    (buildCQF name keys st).1.success = true ∧
    (∀ e, (insertCQF name k st).1 = .error e → (insertCQF name k st).2 = st) ∧
    (∀ e, (deleteCQF name k st).1 = .error e →
      (deleteCQF name k st).2 = st) := by
  refine ⟨rfl, ?_, ?_⟩ <;>
  · intro e he
    cases h : st name with
    | none => simp [insertCQF, deleteCQF, h]
    | some s => simp [insertCQF, deleteCQF, h] at he

/-- C8 (witness): build succeeds on the empty store, and the failing insert
and delete on the unbuilt name `"t"` leave the store equal to what it
was. -/
theorem error_atomicity_witness :
    (buildCQF "t" [] emptyStore).1.success = true ∧
    (insertCQF "t" "k" emptyStore).2 = emptyStore ∧
    (deleteCQF "t" "k" emptyStore).2 = emptyStore :=
  ⟨(error_atomicity "t" "k" [] emptyStore).1,
   (error_atomicity "t" "k" [] emptyStore).2.1 .notBuilt rfl,
   (error_atomicity "t" "k" [] emptyStore).2.2 .notBuilt rfl⟩

/-- C9: the primary-key export is the keys joined by the single character
`'\n'`: empty list gives the empty string, a single key gives the key
itself, and each further key contributes one separator — no header and no
trailing newline. -/
theorem generatePKFileContent_format :
    generatePKFileContent ([] : List Key) = "" ∧
    (∀ k : Key, generatePKFileContent [k] = k) ∧
    (∀ (k b : Key) (l : List Key),
      generatePKFileContent (k :: b :: l) =
        k ++ "\n" ++ generatePKFileContent (b :: l)) := by
  refine ⟨rfl, fun k => rfl, fun k b l => ?_⟩
  show String.intercalate "\n" (k :: b :: l)
      = k ++ "\n" ++ String.intercalate "\n" (b :: l)
  rw [String.intercalate, String.intercalate, String.intercalate.go,
    intercalate_go_eq, intercalate_go_eq]
  simp [String.append_assoc]

/-- C10: on a built name, insert always reports success (there is no
capacity or other failure), the stored set becomes the prior set with the
key added (membership-wise), and adding an already-present key leaves the
set unchanged. -/
theorem insertCQF_total (name k : Key) (st : Store) (s : JsSet)
    (h : st name = some s) :
    (insertCQF name k st).1 = .ok true ∧
    (insertCQF name k st).2 name = some (jsAdd s k) ∧
    (∀ k', jsHas (jsAdd s k) k' = (jsHas s k' || k' == k)) ∧
    (jsHas s k = true → jsAdd s k = s) := by
  refine ⟨?_, ?_, fun k' => jsHas_jsAdd s k k', fun hk => ?_⟩
  · simp [insertCQF, h]
  · simp [insertCQF, h, updateStore]
  · rw [jsAdd, dif_pos (jsHas_iff.mp hk)]

/-- C10 (witness) on the store built from `["x"]`: inserting the member
`"x"` again succeeds and is a no-op on the set. -/
theorem insertCQF_total_witness :
    (insertCQF "t" "x" (buildCQF "t" ["x"] emptyStore).2).1 = .ok true ∧
    jsAdd (jsSetOfList ["x"]) "x" = jsSetOfList ["x"] :=
  ⟨(insertCQF_total "t" "x" (buildCQF "t" ["x"] emptyStore).2
      (jsSetOfList ["x"]) rfl).1,
   (insertCQF_total "t" "x" (buildCQF "t" ["x"] emptyStore).2
      (jsSetOfList ["x"]) rfl).2.2.2 rfl⟩

end CqfService
